import Mathlib

/-!
Verification of the polparse token-launch watcher (src/main.py, src/main_test.py)
against its natural-language specification.

Shallow embedding conventions:
* Timestamps are `Int` seconds (the Python code compares `datetime` values and
  `total_seconds()` differences; all claims are about whole-second boundaries).
* A JSON token record is `RawToken`; an absent-or-null field is `none`.
  `token["field"]` on an absent field raises `KeyError` in Python, which the
  embedding models as `Option.none` propagating out of the per-record step.
* The module-level dict `WATCHED_TOKENS` is an association list in insertion
  order; Python dict insertion appends a fresh key at the end.
* `str.strip()` is `pyStrip`; Python truthiness of an optional string is
  `none`/`some ""` falsy, everything else truthy.
-/

namespace Polparse

/-- A raw upstream feed record (one element of the JSON `items` array).
`none` models an absent or null JSON field.  `start_time` is the already
parsed and UTC-normalised timestamp in seconds (`ensure_utc(fromisoformat(...))`);
`none` means the `start_time` field is missing (so `token["start_time"]` raises). -/
structure RawToken where
  _id : Option Nat
  name : Option String
  symbol : Option String
  start_time : Option Int
  contract_address : Option String
deriving DecidableEq, Repr

/-- The per-token dict stored in `WATCHED_TOKENS` (src/main.py lines 68-75). -/
structure WatchEntry where
  start_time : Int
  notified : Bool
  contract_address_sent : Bool
  monitoring_started : Bool
  name : String
  symbol : String
deriving DecidableEq, Repr

/-- `WATCHED_TOKENS`: a Python dict keyed by token id, in insertion order. -/
abbrev Registry := List (Nat × WatchEntry)

/-- `token_id in WATCHED_TOKENS`. -/
def containsKey (reg : Registry) (tid : Nat) : Bool :=
  reg.any (fun p => p.1 == tid)

/-- Number of stored entries whose key is `tid` (a dict keeps this at most 1). -/
def countKey (reg : Registry) (tid : Nat) : Nat :=
  (reg.filter (fun p => p.1 == tid)).length

/-- `WATCHED_TOKENS.get(token_id)`: the first entry stored under `tid`. -/
def lookupKey (reg : Registry) (tid : Nat) : Option WatchEntry :=
  (reg.find? (fun p => p.1 == tid)).map Prod.snd

/-- Model of Python `str.strip()`: drop leading and trailing whitespace. -/
def pyStrip (s : String) : String :=
  ⟨((s.data.dropWhile Char.isWhitespace).reverse.dropWhile Char.isWhitespace).reverse⟩

/-- One record of the discovery loop body (src/main.py lines 62-84).
`token["_id"]` and `token["start_time"]` are hard indexes: a missing field
raises (modelled by `none`), which the surrounding `except` catches at batch
level.  `name`/`symbol` use `token.get(..., "?")`.  Returns the updated
registry and whether a new entry was admitted (which triggers one
"watching" notification per configured recipient). -/
def discoverToken (now : Int) (reg : Registry) (tok : RawToken) :
    Option (Registry × Bool) :=
  match tok._id, tok.start_time with
  | some tid, some st =>
      if !containsKey reg tid && decide (st > now) then
        some (reg ++ [(tid,
          { start_time := st
            notified := false
            contract_address_sent := false
            monitoring_started := false
            name := tok.name.getD "?"
            symbol := tok.symbol.getD "?" })], true)
      else
        some (reg, false)
  | _, _ => none

/-- One full pass of `poll_upcoming_tokens` over the fetched batch
(src/main.py lines 62-86).  A raised `KeyError` on some record is caught by
the `except` around the whole `for` loop, so the remaining records of the
batch are skipped; admissions made before the bad record are kept.
Also returns the number of admissions (= "watching" notifications sent to
each configured recipient during the pass). -/
def pollPass (now : Int) (reg : Registry) : List RawToken → Registry × Nat
  | [] => (reg, 0)
  | tok :: toks =>
      match discoverToken now reg tok with
      | none => (reg, 0)
      | some (reg2, added) =>
          let rest := pollPass now reg2 toks
          (rest.1, (if added then 1 else 0) + rest.2)

/-- An arbitrary sequence of admission attempts (each with its own current
time and record), as performed by successive discovery passes. -/
def discoverSeq : Registry → List (Int × RawToken) → Registry
  | reg, [] => reg
  | reg, (now, tok) :: rest =>
      match discoverToken now reg tok with
      | none => discoverSeq reg rest
      | some (reg2, _) => discoverSeq reg2 rest

/-- The scheduler look-ahead condition on one entry (src/main.py lines 142-145):
`not info.get("monitoring_started") and (info["start_time"] - now).total_seconds() < 3600`. -/
def schedCond (now : Int) (e : WatchEntry) : Bool :=
  !e.monitoring_started && decide (e.start_time - now < 3600)

/-- Registry after one scheduler pass of `main` (src/main.py lines 138-151):
each entry meeting `schedCond` gets `monitoring_started` set to true.
Entries are handled independently, in iteration order. -/
def schedulerPassReg (now : Int) (reg : Registry) : Registry :=
  reg.map (fun p =>
    if schedCond now p.2 then (p.1, { p.2 with monitoring_started := true }) else p)

/-- Token ids for which the scheduler pass spawns a `monitor_token_release`
task, in iteration order (src/main.py line 150): exactly the entries meeting
`schedCond`, and the spawn happens together with setting the flag. -/
def schedulerPassSpawns (now : Int) (reg : Registry) : List Nat :=
  (reg.filter (fun p => schedCond now p.2)).map Prod.fst

/-- Truthiness-plus-strip test on `contract_address` (src/main.py lines 111-117):
`token.get("contract_address")` truthy, then
`contract_address and isinstance(contract_address, str) and contract_address.strip()`. -/
def validAddr : Option String → Bool
  | none => false
  | some s => !(s == "") && !(pyStrip s == "")

/-- The inner `for token in tokens` scan of one monitor polling cycle
(src/main.py lines 110-127): `token["_id"]` raises on a record with no `_id`
(caught by the cycle's `except`, ending the cycle with nothing sent); on the
first record matching the watched id with a valid contract address the
notifications are sent and the loop `break`s.  Returns whether this cycle
detected the release. -/
def scanTokens (tid : Nat) : List RawToken → Bool
  | [] => false
  | tok :: toks =>
      match tok._id with
      | none => false
      | some i =>
          if i == tid && validAddr tok.contract_address then true
          else scanTokens tid toks

/-- Outcome of one fetch in the monitor's polling loop: a transient
network/parse failure (caught by the `except`), or a token list. -/
inductive PollResult where
  | err : PollResult
  | ok : List RawToken → PollResult
deriving DecidableEq, Repr

/-- One iteration body of the monitor's polling loop, entered with
`contract_address_sent` still false: on detection, send one "released"
message to every configured recipient and set the flag.  Returns the new
flag value and the list of recipients messaged this cycle. -/
def monitorStep (tid : Nat) (uids : List Int) : PollResult → Bool × List Int
  | .err => (false, [])
  | .ok toks => if scanTokens tid toks then (true, uids) else (false, [])

/-- The monitor's polling loop `while not token_info["contract_address_sent"]`
(src/main.py lines 103-130), run over a finite prefix of successive fetch
outcomes.  Returns the final flag and the concatenated list of recipients of
"released" messages.  Once the flag is true the loop condition fails and no
further cycle runs. -/
def monitorRun (tid : Nat) (uids : List Int) (sent : Bool) :
    List PollResult → Bool × List Int
  | [] => (sent, [])
  | p :: ps =>
      if sent then (sent, [])
      else
        let step := monitorStep tid uids p
        let rest := monitorRun tid uids step.1 ps
        (rest.1, step.2 ++ rest.2)

/-- `token_info["contract_address_sent"] = True` seen from the registry: the
monitor mutates the shared per-token dict in place (src/main.py line 126). -/
def markReleasedStep (tid : Nat) (reg : Registry) : Registry :=
  reg.map (fun p =>
    if p.1 == tid then (p.1, { p.2 with contract_address_sent := true }) else p)

/-- One monitor polling iteration as a registry transition: the loop guard
reads `token_info["contract_address_sent"]`; a detection sets it.  Returns
the registry and the number of "released" notification events (each event
messages every configured recipient once). -/
def monitorPollStep (tid : Nat) (p : PollResult) (reg : Registry) :
    Registry × Nat :=
  match lookupKey reg tid with
  | none => (reg, 0)
  | some e =>
      if e.contract_address_sent then (reg, 0)
      else
        match p with
        | .err => (reg, 0)
        | .ok toks =>
            if scanTokens tid toks then (markReleasedStep tid reg, 1)
            else (reg, 0)

/-- One atomic step of the system: a discovery pass over a fetched batch, a
scheduler pass, or one polling iteration of some token's monitor.  The
asyncio event loop interleaves these bodies atomically (suspension points
are only the sleeps and awaits between them). -/
inductive SysStep where
  | discovery : Int → List RawToken → SysStep
  | scheduler : Int → SysStep
  | monitorPoll : Nat → PollResult → SysStep
deriving Repr

/-- Registry after one system step. -/
def stepReg (reg : Registry) : SysStep → Registry
  | .discovery now toks => (pollPass now reg toks).1
  | .scheduler now => schedulerPassReg now reg
  | .monitorPoll tid p => (monitorPollStep tid p reg).1

/-- Monitor-task spawns performed by one system step. -/
def stepSpawns (reg : Registry) : SysStep → List Nat
  | .discovery _ _ => []
  | .scheduler now => schedulerPassSpawns now reg
  | .monitorPoll _ _ => []

/-- Total number of monitor tasks spawned for `tid` along a trace of system
steps starting from `reg`. -/
def spawnCount (tid : Nat) : Registry → List SysStep → Nat
  | _, [] => 0
  | reg, s :: ss => (stepSpawns reg s).count tid + spawnCount tid (stepReg reg s) ss

/-- The discovery loop's request URL (src/main.py line 56). -/
def poll_upcoming_url : String :=
  "https://hot-data.politicalpump.com/tokens?is_upcoming=true&page=1&page_size=50&sort_order=asc&sort_by=start_time"

/-- The Release Monitor's polling request URL (src/main.py line 106). -/
def monitor_release_url : String :=
  "https://hot-data.politicalpump.com/tokens?page=1&page_size=50&sort_order=asc&sort_by=start_time"

/-- The Release Monitor's polling request URL in the mock-server test harness
(src/main_test.py line 175). -/
def test_monitor_release_url : String :=
  "http://127.0.0.1:5000/tokens?is_upcoming=true&page=1&page_size=50&sort_order=asc&sort_by=start_time"

/-- Split a character list at every occurrence of `c` (like `str.split`). -/
def splitOnChar (c : Char) : List Char → List Char → List (List Char)
  | [], acc => [acc.reverse]
  | x :: xs, acc =>
      if x == c then acc.reverse :: splitOnChar c xs []
      else splitOnChar c xs (x :: acc)

/-- The query-parameter names of a URL: the part after the first `?`, split
on `&`, each parameter's name being what precedes its `=`. -/
def queryParamNames (url : String) : List String :=
  match splitOnChar '?' url.data [] with
  | _ :: q :: _ =>
      (splitOnChar '&' q []).map (fun p => ⟨p.takeWhile (fun ch => ch != '=')⟩)
  | _ => []

/-- `wait_seconds = (token_info["start_time"] - now).total_seconds() - 60`
(src/main.py line 93); 60 is the lead time before the scheduled start. -/
def monitorWait (start_time now : Int) : Int :=
  (start_time - now) - 60

/-- Seconds the monitor sleeps before entering its polling loop
(src/main.py lines 94-98): `if wait_seconds > 0: await asyncio.sleep(wait_seconds)`. -/
def monitorSleep (start_time now : Int) : Int :=
  if monitorWait start_time now > 0 then monitorWait start_time now else 0

/-- A Python `datetime`: a wall-clock reading (in seconds) plus an optional
`tzinfo`, modelled by its UTC offset in seconds (`none` = naive).  The UTC
instant an aware datetime denotes is `clock - offset`. -/
structure PyDateTime where
  clock : Int
  tzinfo : Option Int
deriving DecidableEq, Repr

/-- `ensure_utc` (src/main.py lines 28-31): a naive datetime gets
`replace(tzinfo=utc)` (clock fields kept, relabelled as UTC); an aware one
gets `astimezone(utc)` (converted to the equivalent UTC wall clock). -/
def ensure_utc (dt : PyDateTime) : PyDateTime :=
  match dt.tzinfo with
  | none => { clock := dt.clock, tzinfo := some 0 }
  | some off => { clock := dt.clock - off, tzinfo := some 0 }

/-- Whether one fetch outcome makes the monitor's cycle detect the release
of token `tid` (a failed fetch never does). -/
def detects (tid : Nat) : PollResult → Bool
  | .err => false
  | .ok toks => scanTokens tid toks

/-- What the scheduler pass does to a single entry's value. -/
def schedApply (now : Int) (e : WatchEntry) : WatchEntry :=
  if schedCond now e then { e with monitoring_started := true } else e

/-- What `markReleasedStep tid` does to the value stored under key `k`. -/
def relApply (tid k : Nat) (e : WatchEntry) : WatchEntry :=
  if k == tid then { e with contract_address_sent := true } else e

/-- A registry transformation that keeps every key and rewrites each value
from its key and old value. -/
def keyMapVal (g : Nat → WatchEntry → WatchEntry) (reg : Registry) : Registry :=
  reg.map (fun p => (p.1, g p.1 p.2))

/-- After a monitor has been spawned for `tid`: the entry exists and every
entry stored under `tid` has `monitoring_started` set. -/
def FlagSet (tid : Nat) (reg : Registry) : Prop :=
  containsKey reg tid = true ∧
  ∀ e, (tid, e) ∈ reg → e.monitoring_started = true

/-! ## Sample data (used only to instantiate theorems on concrete inputs) -/

/-- A record with no `_id` field: `token["_id"]` raises `KeyError` on it. -/
def badRecord : RawToken :=
  { _id := none, name := some "Bad", symbol := some "BAD",
    start_time := some 100, contract_address := none }

/-- A well-formed upcoming record. -/
def goodRecord : RawToken :=
  { _id := some 7, name := some "TestToken", symbol := some "TST",
    start_time := some 100, contract_address := none }

/-- A record for token 5 whose contract address has appeared. -/
def releasedRecord : RawToken :=
  { _id := some 5, name := some "TestToken", symbol := some "TST",
    start_time := some 0, contract_address := some "0xABC" }

/-- The same token 5 before release (null contract address). -/
def upcomingRecord : RawToken :=
  { _id := some 5, name := some "TestToken", symbol := some "TST",
    start_time := some 0, contract_address := none }

/-- A record whose `name` and `symbol` fields are missing. -/
def noNameRecord : RawToken :=
  { _id := some 9, name := none, symbol := none,
    start_time := some 50, contract_address := none }

/-- A watch entry one second outside the scheduler look-ahead window. -/
def farEntry : WatchEntry :=
  { start_time := 3601, notified := false, contract_address_sent := false,
    monitoring_started := false, name := "TestToken", symbol := "TST" }

/-- A watch entry whose lifecycle flags are both already set. -/
def doneEntry : WatchEntry :=
  { start_time := 100, notified := false, contract_address_sent := true,
    monitoring_started := true, name := "TestToken", symbol := "TST" }

/-! ## Registry helper lemmas -/

theorem lookupKey_nil (tid : Nat) : lookupKey [] tid = none := rfl

theorem lookupKey_cons (k : Nat) (e : WatchEntry) (reg : Registry) (tid : Nat) :
    lookupKey ((k, e) :: reg) tid =
      if k == tid then some e else lookupKey reg tid := by
  simp only [lookupKey, List.find?]
  cases h : (k == tid) <;> simp [h]

theorem lookupKey_append (reg l : Registry) (tid : Nat) :
    lookupKey (reg ++ l) tid =
      match lookupKey reg tid with
      | some e => some e
      | none => lookupKey l tid := by
  induction reg with
  | nil => simp [lookupKey_nil]
  | cons p reg ih =>
      rw [List.cons_append, lookupKey_cons, lookupKey_cons]
      cases h : (p.1 == tid) <;> simp [ih]

theorem containsKey_nil (tid : Nat) : containsKey [] tid = false := rfl

theorem containsKey_cons (k : Nat) (e : WatchEntry) (reg : Registry) (tid : Nat) :
    containsKey ((k, e) :: reg) tid = ((k == tid) || containsKey reg tid) := by
  simp [containsKey, List.any]

theorem containsKey_eq_isSome (reg : Registry) (tid : Nat) :
    containsKey reg tid = (lookupKey reg tid).isSome := by
  induction reg with
  | nil => rfl
  | cons p reg ih =>
      rw [show p = (p.1, p.2) from rfl, containsKey_cons, lookupKey_cons]
      cases h : (p.1 == tid) <;> simp [h, ih]

theorem lookupKey_eq_none_of_not_contains (reg : Registry) (tid : Nat)
    (h : containsKey reg tid = false) : lookupKey reg tid = none := by
  rw [containsKey_eq_isSome] at h
  rcases hl : lookupKey reg tid with _ | e
  · rfl
  · rw [hl] at h; cases h

theorem mem_of_lookupKey (reg : Registry) (tid : Nat) (e : WatchEntry)
    (h : lookupKey reg tid = some e) : (tid, e) ∈ reg := by
  induction reg with
  | nil => cases h
  | cons p reg ih =>
      rw [show p = (p.1, p.2) from rfl] at h ⊢
      rw [lookupKey_cons] at h
      by_cases hk : (p.1 == tid) = true
      · rw [if_pos hk] at h
        have h1 : p.1 = tid := by simpa using hk
        have h2 : p.2 = e := Option.some.inj h
        rw [h1, h2]
        exact List.mem_cons_self _ _
      · rw [if_neg hk] at h
        exact List.mem_cons_of_mem _ (ih h)

theorem countKey_nil (tid : Nat) : countKey [] tid = 0 := rfl

theorem countKey_cons (k : Nat) (e : WatchEntry) (reg : Registry) (tid : Nat) :
    countKey ((k, e) :: reg) tid =
      (if k == tid then 1 else 0) + countKey reg tid := by
  simp only [countKey, List.filter]
  cases h : (k == tid) <;> simp [h, Nat.add_comm]

theorem countKey_append (reg l : Registry) (tid : Nat) :
    countKey (reg ++ l) tid = countKey reg tid + countKey l tid := by
  simp [countKey, List.filter_append]

theorem countKey_eq_zero_of_not_contains (reg : Registry) (tid : Nat)
    (h : containsKey reg tid = false) : countKey reg tid = 0 := by
  induction reg with
  | nil => rfl
  | cons p reg ih =>
      rw [show p = (p.1, p.2) from rfl] at h ⊢
      rw [containsKey_cons] at h
      rw [countKey_cons]
      rcases Bool.or_eq_false_iff.mp h with ⟨h1, h2⟩
      simp [h1, ih h2]

theorem countKey_pos_of_mem (reg : Registry) (tid : Nat) (a : WatchEntry)
    (ha : (tid, a) ∈ reg) : 1 ≤ countKey reg tid := by
  have hm : (tid, a) ∈ reg.filter (fun q => q.1 == tid) :=
    List.mem_filter.mpr ⟨ha, by simp⟩
  have := List.length_pos.mpr (List.ne_nil_of_mem hm)
  simpa [countKey] using this

theorem mem_of_countKey_le_one (reg : Registry) (tid : Nat) (a b : WatchEntry)
    (hc : countKey reg tid ≤ 1) (ha : (tid, a) ∈ reg) (hb : (tid, b) ∈ reg) :
    a = b := by
  induction reg with
  | nil => cases ha
  | cons p reg ih =>
      rw [show p = (p.1, p.2) from rfl] at hc
      rw [countKey_cons] at hc
      rcases List.mem_cons.mp ha with ha1 | ha1 <;>
        rcases List.mem_cons.mp hb with hb1 | hb1
      · have := ha1.trans hb1.symm
        exact congrArg Prod.snd this
      · exfalso
        have hk : (p.1 == tid) = true := by rw [← ha1]; simp
        rw [if_pos hk] at hc
        have := countKey_pos_of_mem reg tid b hb1
        omega
      · exfalso
        have hk : (p.1 == tid) = true := by rw [← hb1]; simp
        rw [if_pos hk] at hc
        have := countKey_pos_of_mem reg tid a ha1
        omega
      · apply ih _ ha1 hb1
        cases h : (p.1 == tid)
        · rw [if_neg (by simp [h])] at hc; omega
        · rw [if_pos h] at hc; omega

/-! ## Discovery lemmas -/

theorem discoverToken_inv (now : Int) (reg : Registry) (tok : RawToken)
    (r : Registry) (b : Bool) (h : discoverToken now reg tok = some (r, b)) :
    (b = false ∧ r = reg) ∨
    (b = true ∧ ∃ tid st, tok._id = some tid ∧ tok.start_time = some st ∧
      containsKey reg tid = false ∧ now < st ∧
      r = reg ++ [(tid, ⟨st, false, false, false,
        tok.name.getD "?", tok.symbol.getD "?"⟩)]) := by
  obtain ⟨oid, oname, osym, ost, oaddr⟩ := tok
  rcases oid with _ | tid
  · simp [discoverToken] at h
  rcases ost with _ | st
  · simp [discoverToken] at h
  simp only [discoverToken] at h
  by_cases hc : (!containsKey reg tid && decide (st > now)) = true
  · rw [if_pos hc] at h
    obtain ⟨h1, h2⟩ := (Prod.mk.injEq _ _ _ _).mp (Option.some.inj h)
    have hc2 : containsKey reg tid = false ∧ now < st := by
      simpa [Bool.and_eq_true, Bool.not_eq_true', gt_iff_lt] using hc
    exact Or.inr ⟨h2.symm, tid, st, rfl, rfl, hc2.1, hc2.2, h1.symm⟩
  · rw [if_neg hc] at h
    obtain ⟨h1, h2⟩ := (Prod.mk.injEq _ _ _ _).mp (Option.some.inj h)
    exact Or.inl ⟨h2.symm, h1.symm⟩

theorem discoverToken_countKey (now : Int) (reg : Registry) (tok : RawToken)
    (r : Registry) (b : Bool) (tid : Nat)
    (h : discoverToken now reg tok = some (r, b)) :
    countKey r tid ≤ max (countKey reg tid) 1 := by
  rcases discoverToken_inv now reg tok r b h with ⟨_, rfl⟩ |
    ⟨_, tid2, st, _, _, hcon, _, rfl⟩
  · exact le_max_left _ _
  · rw [countKey_append, countKey_cons, countKey_nil]
    by_cases ht : (tid2 == tid) = true
    · have : tid2 = tid := by simpa using ht
      subst this
      rw [countKey_eq_zero_of_not_contains reg tid2 hcon]
      simp
    · rw [if_neg ht]
      simp

theorem discoverToken_lookup_preserved (now : Int) (reg : Registry)
    (tok : RawToken) (r : Registry) (b : Bool) (tid : Nat) (e : WatchEntry)
    (h : discoverToken now reg tok = some (r, b))
    (he : lookupKey reg tid = some e) : lookupKey r tid = some e := by
  rcases discoverToken_inv now reg tok r b h with ⟨_, rfl⟩ |
    ⟨_, tid2, st, _, _, _, _, rfl⟩
  · exact he
  · rw [lookupKey_append, he]

theorem discoverToken_new_entry (now : Int) (reg : Registry) (tok : RawToken)
    (r : Registry) (b : Bool) (tid : Nat) (e2 : WatchEntry)
    (h : discoverToken now reg tok = some (r, b))
    (hn : lookupKey reg tid = none) (he : lookupKey r tid = some e2) :
    e2.monitoring_started = false ∧ e2.contract_address_sent = false := by
  rcases discoverToken_inv now reg tok r b h with ⟨_, rfl⟩ |
    ⟨_, tid2, st, _, _, _, _, rfl⟩
  · rw [hn] at he; cases he
  · rw [lookupKey_append, hn] at he
    rw [lookupKey_cons] at he
    by_cases ht : (tid2 == tid) = true
    · rw [if_pos ht] at he
      cases he
      exact ⟨rfl, rfl⟩
    · rw [if_neg ht, lookupKey_nil] at he
      cases he

theorem discoverToken_mem_key (now : Int) (reg : Registry) (tok : RawToken)
    (r : Registry) (b : Bool) (tid : Nat) (e : WatchEntry)
    (h : discoverToken now reg tok = some (r, b))
    (hc : containsKey reg tid = true) (hm : (tid, e) ∈ r) : (tid, e) ∈ reg := by
  rcases discoverToken_inv now reg tok r b h with ⟨_, rfl⟩ |
    ⟨_, tid2, st, _, _, hcon, _, rfl⟩
  · exact hm
  · rcases List.mem_append.mp hm with h1 | h1
    · exact h1
    · exfalso
      have : tid = tid2 := by
        have := List.mem_singleton.mp h1
        exact congrArg Prod.fst this
      rw [this] at hc
      rw [hc] at hcon
      cases hcon

theorem discoverToken_contains_preserved (now : Int) (reg : Registry)
    (tok : RawToken) (r : Registry) (b : Bool) (tid : Nat)
    (h : discoverToken now reg tok = some (r, b))
    (hc : containsKey reg tid = true) : containsKey r tid = true := by
  rw [containsKey_eq_isSome] at hc ⊢
  rcases ho : lookupKey reg tid with _ | e
  · rw [ho] at hc; cases hc
  · rw [discoverToken_lookup_preserved now reg tok r b tid e h ho]
    rfl

theorem pollPass_lookup_preserved (now : Int) (toks : List RawToken)
    (reg : Registry) (tid : Nat) (e : WatchEntry)
    (he : lookupKey reg tid = some e) :
    lookupKey (pollPass now reg toks).1 tid = some e := by
  induction toks generalizing reg with
  | nil => exact he
  | cons tok ts ih =>
      rcases hdt : discoverToken now reg tok with _ | ⟨reg2, added⟩
      · simp only [pollPass, hdt]
        exact he
      · simp only [pollPass, hdt]
        exact ih reg2 (discoverToken_lookup_preserved now reg tok reg2 added tid e hdt he)

theorem pollPass_countKey (now : Int) (toks : List RawToken) (reg : Registry)
    (tid : Nat) : countKey (pollPass now reg toks).1 tid ≤ max (countKey reg tid) 1 := by
  induction toks generalizing reg with
  | nil => exact le_max_left _ _
  | cons tok ts ih =>
      rcases hdt : discoverToken now reg tok with _ | ⟨reg2, added⟩
      · simp only [pollPass, hdt]
        exact le_max_left _ _
      · simp only [pollPass, hdt]
        refine le_trans (ih reg2) ?_
        have := discoverToken_countKey now reg tok reg2 added tid hdt
        omega

theorem pollPass_new_flags (now : Int) (toks : List RawToken) (reg : Registry)
    (tid : Nat) (e2 : WatchEntry) (hn : lookupKey reg tid = none)
    (he : lookupKey (pollPass now reg toks).1 tid = some e2) :
    e2.monitoring_started = false ∧ e2.contract_address_sent = false := by
  induction toks generalizing reg with
  | nil =>
      rw [show (pollPass now reg []).1 = reg from rfl] at he
      rw [hn] at he; cases he
  | cons tok ts ih =>
      rcases hdt : discoverToken now reg tok with _ | ⟨reg2, added⟩
      · simp only [pollPass, hdt] at he
        rw [hn] at he; cases he
      · simp only [pollPass, hdt] at he
        rcases hl : lookupKey reg2 tid with _ | e3
        · exact ih reg2 hl he
        · have hflags := discoverToken_new_entry now reg tok reg2 added tid e3 hdt hn hl
          have hsame := pollPass_lookup_preserved now ts reg2 tid e3 hl
          rw [hsame] at he
          cases he
          exact hflags

theorem pollPass_mem_key (now : Int) (toks : List RawToken) (reg : Registry)
    (tid : Nat) (e : WatchEntry) (hc : containsKey reg tid = true)
    (hm : (tid, e) ∈ (pollPass now reg toks).1) : (tid, e) ∈ reg := by
  induction toks generalizing reg with
  | nil => exact hm
  | cons tok ts ih =>
      rcases hdt : discoverToken now reg tok with _ | ⟨reg2, added⟩
      · simp only [pollPass, hdt] at hm
        exact hm
      · simp only [pollPass, hdt] at hm
        have hc2 := discoverToken_contains_preserved now reg tok reg2 added tid hdt hc
        exact discoverToken_mem_key now reg tok reg2 added tid e hdt hc (ih reg2 hc2 hm)

theorem pollPass_contains_preserved (now : Int) (toks : List RawToken)
    (reg : Registry) (tid : Nat) (hc : containsKey reg tid = true) :
    containsKey (pollPass now reg toks).1 tid = true := by
  rw [containsKey_eq_isSome] at hc ⊢
  rcases ho : lookupKey reg tid with _ | e
  · rw [ho] at hc; cases hc
  · rw [pollPass_lookup_preserved now toks reg tid e ho]
    rfl

/-! ## Scheduler and monitor lemmas -/

theorem schedulerPassReg_eq (now : Int) (reg : Registry) :
    schedulerPassReg now reg = keyMapVal (fun _ e => schedApply now e) reg := by
  unfold schedulerPassReg keyMapVal schedApply
  induction reg with
  | nil => rfl
  | cons p reg ih =>
      simp only [List.map_cons, List.cons.injEq]
      refine ⟨?_, ih⟩
      by_cases hc : schedCond now p.2 = true
      · rw [if_pos hc, if_pos hc]
      · rw [if_neg hc, if_neg hc]

theorem markReleasedStep_eq (tid : Nat) (reg : Registry) :
    markReleasedStep tid reg = keyMapVal (relApply tid) reg := by
  unfold markReleasedStep keyMapVal relApply
  induction reg with
  | nil => rfl
  | cons p reg ih =>
      simp only [List.map_cons, List.cons.injEq]
      refine ⟨?_, ih⟩
      by_cases hc : (p.1 == tid) = true
      · rw [if_pos hc, if_pos hc]
      · rw [if_neg hc, if_neg hc]

theorem lookupKey_keyMapVal (g : Nat → WatchEntry → WatchEntry) (reg : Registry)
    (tid : Nat) :
    lookupKey (keyMapVal g reg) tid = (lookupKey reg tid).map (g tid) := by
  induction reg with
  | nil => rfl
  | cons p reg ih =>
      unfold keyMapVal
      simp only [List.map_cons]
      rw [lookupKey_cons, lookupKey_cons]
      by_cases hk : (p.1 == tid) = true
      · rw [if_pos hk, if_pos hk]
        have he : p.1 = tid := by simpa using hk
        rw [he]
        rfl
      · rw [if_neg hk, if_neg hk]
        exact ih

theorem countKey_keyMapVal (g : Nat → WatchEntry → WatchEntry) (reg : Registry)
    (tid : Nat) : countKey (keyMapVal g reg) tid = countKey reg tid := by
  induction reg with
  | nil => rfl
  | cons p reg ih =>
      unfold keyMapVal
      simp only [List.map_cons]
      rw [countKey_cons, countKey_cons]
      unfold keyMapVal at ih
      rw [ih]

theorem mem_keyMapVal (g : Nat → WatchEntry → WatchEntry) (reg : Registry)
    (tid : Nat) (e2 : WatchEntry) (hm : (tid, e2) ∈ keyMapVal g reg) :
    ∃ e, (tid, e) ∈ reg ∧ e2 = g tid e := by
  unfold keyMapVal at hm
  rcases List.mem_map.mp hm with ⟨p, hp, hpe⟩
  obtain ⟨h1, h2⟩ := (Prod.mk.injEq _ _ _ _).mp hpe
  refine ⟨p.2, ?_, ?_⟩
  · rw [← h1]; exact hp
  · rw [← h2, h1]

theorem contains_of_mem (reg : Registry) (tid : Nat) (e : WatchEntry)
    (hm : (tid, e) ∈ reg) : containsKey reg tid = true := by
  unfold containsKey
  exact List.any_eq_true.mpr ⟨(tid, e), hm, by simp⟩

theorem containsKey_keyMapVal (g : Nat → WatchEntry → WatchEntry) (reg : Registry)
    (tid : Nat) : containsKey (keyMapVal g reg) tid = containsKey reg tid := by
  rw [containsKey_eq_isSome, containsKey_eq_isSome, lookupKey_keyMapVal]
  rcases lookupKey reg tid with _ | e <;> rfl

theorem schedApply_monitoring (now : Int) (e : WatchEntry)
    (h : e.monitoring_started = true) :
    (schedApply now e).monitoring_started = true := by
  unfold schedApply
  by_cases hc : schedCond now e = true
  · rw [if_pos hc]
  · rw [if_neg hc]; exact h

theorem schedApply_sent (now : Int) (e : WatchEntry) :
    (schedApply now e).contract_address_sent = e.contract_address_sent := by
  unfold schedApply
  by_cases hc : schedCond now e = true
  · rw [if_pos hc]
  · rw [if_neg hc]

theorem relApply_monitoring (tid k : Nat) (e : WatchEntry) :
    (relApply tid k e).monitoring_started = e.monitoring_started := by
  unfold relApply
  by_cases hc : (k == tid) = true
  · rw [if_pos hc]
  · rw [if_neg hc]

theorem relApply_sent (tid k : Nat) (e : WatchEntry)
    (h : e.contract_address_sent = true) :
    (relApply tid k e).contract_address_sent = true := by
  unfold relApply
  by_cases hc : (k == tid) = true
  · rw [if_pos hc]
  · rw [if_neg hc]; exact h

theorem mem_schedulerPassSpawns (now : Int) (reg : Registry) (tid : Nat) :
    tid ∈ schedulerPassSpawns now reg ↔
      ∃ e, (tid, e) ∈ reg ∧ schedCond now e = true := by
  unfold schedulerPassSpawns
  constructor
  · intro hm
    rcases List.mem_map.mp hm with ⟨p, hp, hfst⟩
    rcases List.mem_filter.mp hp with ⟨hmem, hcond⟩
    refine ⟨p.2, ?_, hcond⟩
    rw [← hfst]
    exact hmem
  · rintro ⟨e, hmem, hcond⟩
    exact List.mem_map.mpr ⟨(tid, e), List.mem_filter.mpr ⟨hmem, hcond⟩, rfl⟩

theorem schedulerPassSpawns_count (now : Int) (reg : Registry) (tid : Nat) :
    (schedulerPassSpawns now reg).count tid ≤ countKey reg tid := by
  unfold schedulerPassSpawns countKey
  induction reg with
  | nil => simp
  | cons p reg ih =>
      by_cases hc : schedCond now p.2 = true
      · rw [List.filter_cons_of_pos (by simpa using hc), List.filter_cons,
          List.map_cons, List.count_cons]
        by_cases hk : (p.1 == tid) = true
        · simp only [hk, if_pos]
          simp only [List.length_cons]
          omega
        · simp only [hk]
          simp only [Bool.false_eq_true, if_false]
          have : (if p.1 == tid then 1 else 0) = 0 := by simp [hk]
          omega
      · rw [List.filter_cons_of_neg (by simpa using hc), List.filter_cons]
        by_cases hk : (p.1 == tid) = true
        · simp only [hk, if_pos, List.length_cons]
          omega
        · simp only [hk, Bool.false_eq_true, if_false]
          exact ih

theorem monitorPollStep_reg (tid : Nat) (p : PollResult) (reg : Registry) :
    (monitorPollStep tid p reg).1 = reg ∨
    (monitorPollStep tid p reg).1 = markReleasedStep tid reg := by
  unfold monitorPollStep
  rcases hl : lookupKey reg tid with _ | e
  · simp [hl]
  · simp only [hl]
    by_cases hs : e.contract_address_sent = true
    · simp [hs]
    · simp only [Bool.not_eq_true] at hs
      simp only [hs]
      cases p with
      | err => simp
      | ok toks =>
          by_cases hd : scanTokens tid toks = true
          · simp [hd]
          · simp [hd]

theorem flagSet_keyMapVal (tid : Nat) (g : Nat → WatchEntry → WatchEntry)
    (reg : Registry)
    (hg : ∀ e, e.monitoring_started = true → (g tid e).monitoring_started = true)
    (h : FlagSet tid reg) : FlagSet tid (keyMapVal g reg) := by
  refine ⟨?_, ?_⟩
  · rw [containsKey_keyMapVal]; exact h.1
  · intro e2 hm
    rcases mem_keyMapVal g reg tid e2 hm with ⟨e, hmem, he⟩
    rw [he]
    exact hg e (h.2 e hmem)

theorem flagSet_step (tid : Nat) (reg : Registry) (s : SysStep)
    (h : FlagSet tid reg) : FlagSet tid (stepReg reg s) := by
  cases s with
  | discovery now toks =>
      refine ⟨pollPass_contains_preserved now toks reg tid h.1, ?_⟩
      intro e hm
      exact h.2 e (pollPass_mem_key now toks reg tid e h.1 hm)
  | scheduler now =>
      show FlagSet tid (schedulerPassReg now reg)
      rw [schedulerPassReg_eq]
      exact flagSet_keyMapVal tid _ reg (fun e he => schedApply_monitoring now e he) h
  | monitorPoll tid2 p =>
      show FlagSet tid (monitorPollStep tid2 p reg).1
      rcases monitorPollStep_reg tid2 p reg with hr | hr
      · rw [hr]; exact h
      · rw [hr, markReleasedStep_eq]
        refine flagSet_keyMapVal tid _ reg (fun e he => ?_) h
        rw [relApply_monitoring]
        exact he

theorem flagSet_no_spawn (tid : Nat) (reg : Registry) (s : SysStep)
    (h : FlagSet tid reg) : (stepSpawns reg s).count tid = 0 := by
  cases s with
  | discovery now toks => rfl
  | monitorPoll tid2 p => rfl
  | scheduler now =>
      apply List.count_eq_zero.mpr
      intro hm
      rcases (mem_schedulerPassSpawns now reg tid).mp hm with ⟨e, hmem, hcond⟩
      have hms := h.2 e hmem
      unfold schedCond at hcond
      rw [hms] at hcond
      simp at hcond

theorem spawnCount_zero_of_flagSet (tid : Nat) (reg : Registry)
    (ss : List SysStep) (h : FlagSet tid reg) : spawnCount tid reg ss = 0 := by
  induction ss generalizing reg with
  | nil => rfl
  | cons s ss ih =>
      show (stepSpawns reg s).count tid + spawnCount tid (stepReg reg s) ss = 0
      rw [flagSet_no_spawn tid reg s h, ih (stepReg reg s) (flagSet_step tid reg s h)]

theorem countKey_step (tid : Nat) (reg : Registry) (s : SysStep)
    (h : countKey reg tid ≤ 1) : countKey (stepReg reg s) tid ≤ 1 := by
  cases s with
  | discovery now toks =>
      show countKey (pollPass now reg toks).1 tid ≤ 1
      have := pollPass_countKey now toks reg tid
      omega
  | scheduler now =>
      show countKey (schedulerPassReg now reg) tid ≤ 1
      rw [schedulerPassReg_eq, countKey_keyMapVal]
      exact h
  | monitorPoll tid2 p =>
      show countKey (monitorPollStep tid2 p reg).1 tid ≤ 1
      rcases monitorPollStep_reg tid2 p reg with hr | hr
      · rw [hr]; exact h
      · rw [hr, markReleasedStep_eq, countKey_keyMapVal]
        exact h

theorem stepSpawns_count_le (tid : Nat) (reg : Registry) (s : SysStep)
    (h : countKey reg tid ≤ 1) : (stepSpawns reg s).count tid ≤ 1 := by
  cases s with
  | discovery now toks => exact Nat.zero_le 1
  | monitorPoll tid2 p => exact Nat.zero_le 1
  | scheduler now =>
      exact le_trans (schedulerPassSpawns_count now reg tid) h

theorem spawn_sets_flag (tid : Nat) (reg : Registry) (s : SysStep)
    (hc : countKey reg tid ≤ 1) (hs : 1 ≤ (stepSpawns reg s).count tid) :
    FlagSet tid (stepReg reg s) := by
  cases s with
  | discovery now toks => cases hs
  | monitorPoll tid2 p => cases hs
  | scheduler now =>
      have hmem : tid ∈ schedulerPassSpawns now reg := by
        by_contra hnot
        rw [show (stepSpawns reg (SysStep.scheduler now)) =
          schedulerPassSpawns now reg from rfl] at hs
        rw [List.count_eq_zero.mpr hnot] at hs
        omega
      rcases (mem_schedulerPassSpawns now reg tid).mp hmem with ⟨e0, hm0, hcond0⟩
      show FlagSet tid (schedulerPassReg now reg)
      rw [schedulerPassReg_eq]
      refine ⟨?_, ?_⟩
      · rw [containsKey_keyMapVal]
        exact contains_of_mem reg tid e0 hm0
      · intro e2 hm2
        rcases mem_keyMapVal _ reg tid e2 hm2 with ⟨e, hmem2, he⟩
        have : e = e0 := mem_of_countKey_le_one reg tid e e0 hc hmem2 hm0
        rw [this] at he
        rw [he]
        unfold schedApply
        rw [if_pos hcond0]

theorem spawnCount_le_one (tid : Nat) (reg : Registry) (ss : List SysStep)
    (h : countKey reg tid ≤ 1) : spawnCount tid reg ss ≤ 1 := by
  induction ss generalizing reg with
  | nil => exact Nat.zero_le 1
  | cons s ss ih =>
      show (stepSpawns reg s).count tid + spawnCount tid (stepReg reg s) ss ≤ 1
      rcases Nat.eq_zero_or_pos ((stepSpawns reg s).count tid) with h0 | h1
      · rw [h0]
        simpa using ih (stepReg reg s) (countKey_step tid reg s h)
      · have hle := stepSpawns_count_le tid reg s h
        have hz := spawnCount_zero_of_flagSet tid (stepReg reg s) ss
          (spawn_sets_flag tid reg s h h1)
        omega

/-! ## Monitor polling loop lemmas -/

theorem monitorRun_sent (tid : Nat) (uids : List Int) (ps : List PollResult) :
    monitorRun tid uids true ps = (true, []) := by
  cases ps with
  | nil => rfl
  | cons p ps => simp [monitorRun]

theorem monitorStep_of_detect (tid : Nat) (uids : List Int) (p : PollResult)
    (h : detects tid p = true) : monitorStep tid uids p = (true, uids) := by
  cases p with
  | err => cases h
  | ok toks =>
      have : scanTokens tid toks = true := h
      simp [monitorStep, this]

theorem monitorStep_of_no_detect (tid : Nat) (uids : List Int) (p : PollResult)
    (h : detects tid p = false) : monitorStep tid uids p = (false, []) := by
  cases p with
  | err => rfl
  | ok toks =>
      have : scanTokens tid toks = false := h
      simp [monitorStep, this]

theorem monitorRun_all_detect (tid : Nat) (uids : List Int)
    (ps : List PollResult) (hne : ps ≠ [])
    (h : ∀ p ∈ ps, detects tid p = true) :
    monitorRun tid uids false ps = (true, uids) := by
  cases ps with
  | nil => exact absurd rfl hne
  | cons p ps =>
      have hstep := monitorStep_of_detect tid uids p (h p (List.mem_cons_self p ps))
      simp [monitorRun, hstep, monitorRun_sent]

theorem monitorRun_no_detect (tid : Nat) (uids : List Int) (ps : List PollResult)
    (h : ∀ p ∈ ps, detects tid p = false) :
    monitorRun tid uids false ps = (false, []) := by
  induction ps with
  | nil => rfl
  | cons p ps ih =>
      have hstep := monitorStep_of_no_detect tid uids p (h p (List.mem_cons_self p ps))
      simp [monitorRun, hstep, ih (fun q hq => h q (List.mem_cons_of_mem p hq))]

theorem monitorRun_append_no_detect (tid : Nat) (uids : List Int)
    (pre post : List PollResult) (h : ∀ p ∈ pre, detects tid p = false) :
    monitorRun tid uids false (pre ++ post) = monitorRun tid uids false post := by
  induction pre with
  | nil => rfl
  | cons p pre ih =>
      have hstep := monitorStep_of_no_detect tid uids p (h p (List.mem_cons_self p pre))
      rw [List.cons_append]
      simp [monitorRun, hstep, ih (fun q hq => h q (List.mem_cons_of_mem p hq))]

theorem monitorRun_msgs (tid : Nat) (uids : List Int) (ps : List PollResult) :
    (monitorRun tid uids false ps).2 = [] ∨
    (monitorRun tid uids false ps).2 = uids := by
  induction ps with
  | nil => exact Or.inl rfl
  | cons p ps ih =>
      by_cases hd : detects tid p = true
      · have hstep := monitorStep_of_detect tid uids p hd
        right
        simp [monitorRun, hstep, monitorRun_sent]
      · have hstep := monitorStep_of_no_detect tid uids p
          (Bool.not_eq_true _ ▸ eq_false_of_ne_true hd)
        simp only [monitorRun, hstep, Bool.false_eq_true, if_false, List.nil_append]
        exact ih

/-! ## Release detection lemmas -/

theorem pyStrip_empty : pyStrip "" = "" := rfl

theorem validAddr_iff (o : Option String) :
    validAddr o = true ↔ ∃ s, o = some s ∧ pyStrip s ≠ "" := by
  cases o with
  | none => simp [validAddr]
  | some s =>
      simp only [validAddr, Bool.and_eq_true, Bool.not_eq_true', beq_eq_false_iff_ne,
        ne_eq, Option.some.injEq]
      constructor
      · rintro ⟨h1, h2⟩
        exact ⟨s, rfl, h2⟩
      · rintro ⟨t, ht, h2⟩
        subst ht
        refine ⟨?_, h2⟩
        intro hs
        apply h2
        rw [hs]
        exact pyStrip_empty

theorem scanTokens_iff_exists (tid : Nat) (toks : List RawToken)
    (hall : ∀ t ∈ toks, t._id ≠ none) :
    scanTokens tid toks = true ↔
      ∃ t ∈ toks, t._id = some tid ∧ validAddr t.contract_address = true := by
  induction toks with
  | nil => simp [scanTokens]
  | cons tok ts ih =>
      rcases hid : tok._id with _ | i
      · exact absurd hid (hall tok (List.mem_cons_self tok ts))
      have hub : scanTokens tid (tok :: ts) =
          (if i == tid && validAddr tok.contract_address then true
           else scanTokens tid ts) := by
        simp [scanTokens, hid]
      by_cases hcond : (i == tid && validAddr tok.contract_address) = true
      · rw [hub, if_pos hcond]
        rcases Bool.and_eq_true _ _ ▸ hcond with ⟨hc1, hc2⟩
        have hi : i = tid := by simpa using hc1
        constructor
        · intro _
          exact ⟨tok, List.mem_cons_self tok ts, by rw [hid, hi], hc2⟩
        · intro _
          rfl
      · rw [hub, if_neg hcond]
        have ihts := ih (fun t ht => hall t (List.mem_cons_of_mem tok ht))
        rw [ihts]
        constructor
        · rintro ⟨t, ht, h1, h2⟩
          exact ⟨t, List.mem_cons_of_mem tok ht, h1, h2⟩
        · rintro ⟨t, ht, h1, h2⟩
          rcases List.mem_cons.mp ht with h3 | h3
          · exfalso
            apply hcond
            subst h3
            rw [hid] at h1
            have : i = tid := Option.some.inj h1
            rw [this, h2]
            simp
          · exact ⟨t, h3, h1, h2⟩

/-! ## Claim theorems -/

/-- C1.  Exactly-once release notification: if the feed fails to show the
contract address for some prefix of polling cycles (`pre`) and then keeps
returning the same non-empty address on every later cycle (`post`), the
monitor loop started unreleased sends the release message to each configured
recipient exactly once (the message list is exactly the recipient list) and
ends with `contract_address_sent` set; a loop whose flag is already set runs
no cycle and sends nothing; and over any sequence of cycles whatsoever the
messages sent are either none or exactly one per recipient, never more. -/
theorem monitor_release_exactly_once (tid : Nat) (uids : List Int)
    (pre post ps : List PollResult) (hne : post ≠ [])
    (hpre : ∀ p ∈ pre, detects tid p = false)
    (hpost : ∀ p ∈ post, detects tid p = true) :
    monitorRun tid uids false (pre ++ post) = (true, uids) ∧
    monitorRun tid uids true ps = (true, []) ∧
    ((monitorRun tid uids false ps).2 = [] ∨
     (monitorRun tid uids false ps).2 = uids) := by
  refine ⟨?_, monitorRun_sent tid uids ps, monitorRun_msgs tid uids ps⟩
  rw [monitorRun_append_no_detect tid uids pre post hpre]
  exact monitorRun_all_detect tid uids post hne hpost

theorem monitor_release_exactly_once_witness :
    monitorRun 5 [1, 2] false
        ([.err, .ok [upcomingRecord]] ++ [.ok [releasedRecord], .ok [releasedRecord]]) =
      (true, [1, 2]) ∧
    monitorRun 5 [1, 2] true [.ok [releasedRecord]] = (true, []) ∧
    ((monitorRun 5 [1, 2] false [.ok [releasedRecord]]).2 = [] ∨
     (monitorRun 5 [1, 2] false [.ok [releasedRecord]]).2 = [1, 2]) :=
  monitor_release_exactly_once 5 [1, 2] [.err, .ok [upcomingRecord]]
    [.ok [releasedRecord], .ok [releasedRecord]] [.ok [releasedRecord]]
    (by decide) (by decide) (by decide)

/-- C7 counterexample.  The claim says the Release Monitor's polling request
does not filter by `is_upcoming`, and cites both src/main.py lines 104-108
and src/main_test.py lines 173-177; but the test harness's monitor request
(src/main_test.py line 175) does carry the `is_upcoming` parameter. -/
theorem test_monitor_url_filters_upcoming :
    "is_upcoming" ∈ queryParamNames test_monitor_release_url := by decide

/-- C7 (amended).  The production Release Monitor's polling request
(src/main.py line 106) carries no `is_upcoming` parameter — unlike the
discovery request, which passes `is_upcoming=true` — so it asks for the full
token list and a token that has left the upcoming filter after release can
still be found.  (The mock-server test harness's monitor instead polls with
`is_upcoming=true`; see the counterexample.) -/
theorem monitor_url_unfiltered :
    "is_upcoming" ∉ queryParamNames monitor_release_url ∧
    "is_upcoming" ∈ queryParamNames poll_upcoming_url := by decide

/-- C8.  Release detection condition: on a polling cycle whose records all
carry an `_id` (no `KeyError`) and where exactly one record matches the
watched identifier, the monitor detects the release iff that record's
contract address is present (not absent/null) and non-empty after stripping
whitespace; so an absent, null, empty or whitespace-only address never
triggers the notification. -/
theorem release_detection_condition (tid : Nat) (toks : List RawToken)
    (r : RawToken) (hall : ∀ t ∈ toks, t._id ≠ none)
    (huniq : toks.filter (fun t => t._id == some tid) = [r]) :
    scanTokens tid toks = true ↔
      ∃ s, r.contract_address = some s ∧ pyStrip s ≠ "" := by
  rw [scanTokens_iff_exists tid toks hall]
  have hrmem : r ∈ toks ∧ (r._id == some tid) = true := by
    have hr : r ∈ toks.filter (fun t => t._id == some tid) := by
      rw [huniq]
      exact List.mem_singleton.mpr rfl
    exact List.mem_filter.mp hr
  constructor
  · rintro ⟨t, ht, h1, h2⟩
    have htf : t ∈ toks.filter (fun t => t._id == some tid) :=
      List.mem_filter.mpr ⟨ht, by simp [h1]⟩
    rw [huniq] at htf
    have : t = r := List.mem_singleton.mp htf
    rw [this] at h2
    exact (validAddr_iff _).mp h2
  · rintro ⟨s, hs, hns⟩
    refine ⟨r, hrmem.1, ?_, (validAddr_iff _).mpr ⟨s, hs, hns⟩⟩
    simpa using hrmem.2

theorem release_detection_condition_witness :
    scanTokens 5 [goodRecord, releasedRecord] = true ↔
      ∃ s, releasedRecord.contract_address = some s ∧ pyStrip s ≠ "" :=
  release_detection_condition 5 [goodRecord, releasedRecord] releasedRecord
    (by decide) (by decide)

/-- C9.  Pre-launch waiting delay: the monitor computes
`wait_seconds = (start_time - now) - 60` (lead time 60 seconds), sleeps for
exactly that long when it is positive, and sleeps not at all (proceeds
immediately to polling) when it is zero or negative. -/
theorem monitor_wait_delay (start_time now : Int) :
    monitorWait start_time now = (start_time - now) - 60 ∧
    (monitorWait start_time now > 0 →
      monitorSleep start_time now = monitorWait start_time now) ∧
    (monitorWait start_time now ≤ 0 → monitorSleep start_time now = 0) := by
  refine ⟨rfl, ?_, ?_⟩
  · intro h
    unfold monitorSleep
    rw [if_pos h]
  · intro h
    unfold monitorSleep
    rw [if_neg (by omega)]

theorem monitor_wait_delay_witness :
    monitorSleep 100 0 = monitorWait 100 0 ∧ monitorSleep 100 50 = 0 :=
  ⟨(monitor_wait_delay 100 0).2.1 (by decide),
   (monitor_wait_delay 100 50).2.2 (by decide)⟩

/-- C10.  `ensure_utc` always returns a UTC-labelled datetime; an aware input
is converted to the equivalent UTC instant, while a naive input keeps its
clock fields unchanged and is merely relabelled as UTC (interpreted as
already being UTC, with no conversion). -/
theorem ensure_utc_normalization (dt : PyDateTime) :
    (ensure_utc dt).tzinfo = some 0 ∧
    (dt.tzinfo = none → (ensure_utc dt).clock = dt.clock) ∧
    (∀ off, dt.tzinfo = some off →
      (ensure_utc dt).clock - 0 = dt.clock - off) := by
  obtain ⟨c, tz⟩ := dt
  cases tz with
  | none => exact ⟨rfl, fun _ => rfl, fun off h => by cases h⟩
  | some o =>
      refine ⟨rfl, ?_, ?_⟩
      · intro h
        cases h
      · intro off h
        have ho : o = off := Option.some.inj h
        show c - o - 0 = c - off
        omega

theorem ensure_utc_normalization_witness :
    (ensure_utc ⟨500, none⟩).clock = 500 ∧
    (ensure_utc ⟨500, some 3600⟩).clock - 0 = 500 - 3600 :=
  ⟨(ensure_utc_normalization ⟨500, none⟩).2.1 rfl,
   (ensure_utc_normalization ⟨500, some 3600⟩).2.2 3600 rfl⟩

/-- C2 counterexample.  A malformed record missing the `_id` field raises a
`KeyError` caught by the batch-level `except`, which skips the remaining
records: the well-formed record after it — admissible on its own, as the
second conjunct shows — is not admitted, so one bad record does block
processing of the rest of the batch. -/
theorem discovery_missing_field_blocks_batch :
    (pollPass 0 [] [badRecord, goodRecord]).1 = [] ∧
    containsKey (pollPass 0 [] [goodRecord]).1 7 = true := by
  exact ⟨by decide, by decide⟩

/-- C2 (amended).  Only the `name` and `symbol` fields are defaulted: a
record carrying `_id` and `start_time` never raises — the pass always
continues into the rest of the batch, and when the record is admitted the
stored entry substitutes the placeholder "?" for a missing `name` or
`symbol` (`token.get(..., "?")`).  A record missing `_id` or `start_time`
instead raises, and the batch-level handler skips the remaining records of
that pass (see the counterexample). -/
theorem discovery_placeholder_default (now st : Int) (tid : Nat)
    (reg : Registry) (tok : RawToken) (ts : List RawToken)
    (h1 : tok._id = some tid) (h2 : tok.start_time = some st) :
    ∃ r b, discoverToken now reg tok = some (r, b) ∧
      pollPass now reg (tok :: ts) =
        ((pollPass now r ts).1,
         (if b then 1 else 0) + (pollPass now r ts).2) ∧
      (b = true → lookupKey r tid =
        some ⟨st, false, false, false, tok.name.getD "?", tok.symbol.getD "?"⟩) := by
  obtain ⟨oid, oname, osym, ost, oaddr⟩ := tok
  have h1a : oid = some tid := h1
  have h2a : ost = some st := h2
  subst h1a
  subst h2a
  by_cases hc : (!containsKey reg tid && decide (st > now)) = true
  · have hdt : discoverToken now reg ⟨some tid, oname, osym, some st, oaddr⟩ =
        some (reg ++ [(tid, ⟨st, false, false, false,
          oname.getD "?", osym.getD "?"⟩)], true) := by
      simp [discoverToken, hc]
    refine ⟨_, true, hdt, ?_, ?_⟩
    · simp [pollPass, hdt]
    · intro _
      have hcon : containsKey reg tid = false := by
        rcases Bool.and_eq_true _ _ ▸ hc with ⟨hc1, _⟩
        simpa using hc1
      rw [lookupKey_append, lookupKey_eq_none_of_not_contains reg tid hcon]
      rw [lookupKey_cons]
      simp
  · have hdt : discoverToken now reg ⟨some tid, oname, osym, some st, oaddr⟩ =
        some (reg, false) := by
      simp only [discoverToken]
      rw [if_neg hc]
    refine ⟨reg, false, hdt, ?_, ?_⟩
    · simp [pollPass, hdt]
    · intro hb
      cases hb

theorem discovery_placeholder_default_witness :
    ∃ r b, discoverToken 0 [] noNameRecord = some (r, b) ∧
      pollPass 0 [] (noNameRecord :: [goodRecord]) =
        ((pollPass 0 r [goodRecord]).1,
         (if b then 1 else 0) + (pollPass 0 r [goodRecord]).2) ∧
      (b = true → lookupKey r 9 =
        some ⟨50, false, false, false,
          noNameRecord.name.getD "?", noNameRecord.symbol.getD "?"⟩) :=
  discovery_placeholder_default 0 50 9 [] noNameRecord [goodRecord] rfl rfl

/-- C3.  Future-only admission: an admission attempt whose start time is at
or before the current time returns false and leaves the registry unchanged
(`start_time > now` fails), and any attempt that does admit its record
necessarily has a start time strictly after the current time. -/
theorem discovery_future_only (now st : Int) (reg : Registry)
    (tok : RawToken) (tid : Nat) :
    (tok._id = some tid → tok.start_time = some st → st ≤ now →
      discoverToken now reg tok = some (reg, false)) ∧
    (∀ r, tok.start_time = some st →
      discoverToken now reg tok = some (r, true) → now < st) := by
  constructor
  · intro h1 h2 hle
    obtain ⟨oid, oname, osym, ost, oaddr⟩ := tok
    have h1a : oid = some tid := h1
    have h2a : ost = some st := h2
    subst h1a
    subst h2a
    have hd : decide (st > now) = false := decide_eq_false (not_lt.mpr hle)
    simp [discoverToken, hd]
  · intro r h2 hdt
    rcases discoverToken_inv now reg tok r true hdt with ⟨hfalse, _⟩ |
      ⟨_, tid2, st2, _, hst2, _, hlt, _⟩
    · cases hfalse
    · rw [h2] at hst2
      have : st = st2 := Option.some.inj hst2
      rw [this]
      exact hlt

theorem discovery_future_only_witness :
    discoverToken 100 [] goodRecord = some ([], false) :=
  (discovery_future_only 100 100 [] goodRecord 7).1 rfl rfl (by decide)

/-- C4.  Admission idempotence: an admission attempt whose identifier is
already stored admits nothing and changes nothing (so every field of the
existing entry is preserved); over any sequence of admission attempts with
any arguments, the number of entries stored under an identifier grows to at
most 1; and an entry present at the start survives every later admission
attempt completely unchanged. -/
theorem discovery_idempotent (now : Int) (reg : Registry) (tok : RawToken)
    (tid : Nat) :
    (∀ st e, tok._id = some tid → tok.start_time = some st →
      lookupKey reg tid = some e →
      discoverToken now reg tok = some (reg, false)) ∧
    (∀ calls, countKey (discoverSeq reg calls) tid ≤ max (countKey reg tid) 1) ∧
    (∀ calls e, lookupKey reg tid = some e →
      lookupKey (discoverSeq reg calls) tid = some e) := by
  refine ⟨?_, ?_, ?_⟩
  · intro st e h1 h2 he
    obtain ⟨oid, oname, osym, ost, oaddr⟩ := tok
    have h1a : oid = some tid := h1
    have h2a : ost = some st := h2
    subst h1a
    subst h2a
    have hcon : containsKey reg tid = true := by
      rw [containsKey_eq_isSome, he]
      rfl
    simp [discoverToken, hcon]
  · intro calls
    induction calls generalizing reg with
    | nil => exact le_max_left _ _
    | cons c rest ih =>
        obtain ⟨now2, tok2⟩ := c
        rcases hdt : discoverToken now2 reg tok2 with _ | ⟨reg2, b⟩
        · simp only [discoverSeq, hdt]
          exact ih reg
        · simp only [discoverSeq, hdt]
          refine le_trans (ih reg2) ?_
          have hstep := discoverToken_countKey now2 reg tok2 reg2 b tid hdt
          exact max_le (le_trans hstep (max_le (le_max_left _ _) (le_max_right _ _)))
            (le_max_right _ _)
  · intro calls e he
    induction calls generalizing reg with
    | nil => exact he
    | cons c rest ih =>
        obtain ⟨now2, tok2⟩ := c
        rcases hdt : discoverToken now2 reg tok2 with _ | ⟨reg2, b⟩
        · simp only [discoverSeq, hdt]
          exact ih reg he
        · simp only [discoverSeq, hdt]
          exact ih reg2 (discoverToken_lookup_preserved now2 reg tok2 reg2 b tid e hdt he)

theorem discovery_idempotent_witness :
    discoverToken 0 [(7, farEntry)] goodRecord = some ([(7, farEntry)], false) ∧
    countKey (discoverSeq [(7, farEntry)] [(0, goodRecord), (0, goodRecord)]) 7 ≤
      max (countKey [(7, farEntry)] 7) 1 ∧
    lookupKey (discoverSeq [(7, farEntry)] [(0, goodRecord), (0, goodRecord)]) 7 =
      some farEntry :=
  ⟨(discovery_idempotent 0 [(7, farEntry)] goodRecord 7).1 100 farEntry rfl rfl (by decide),
   (discovery_idempotent 0 [(7, farEntry)] goodRecord 7).2.1
     [(0, goodRecord), (0, goodRecord)],
   (discovery_idempotent 0 [(7, farEntry)] goodRecord 7).2.2
     [(0, goodRecord), (0, goodRecord)] farEntry (by decide)⟩

/-- C5.  Scheduler look-ahead gating: a scheduler pass spawns a Release
Monitor for `tid` iff some stored entry for `tid` has `monitoring_started`
false and `start_time - now < 3600` (so an entry exactly 3601 seconds ahead
is not spawned, as the witness instantiates); a spawn happens only together
with the false→true transition of `monitoring_started` (after a pass that
spawned `tid`, the stored entry has the flag set); and along any trace of
system steps at most one monitor is ever spawned per identifier. -/
theorem scheduler_lookahead_gating (now : Int) (reg : Registry) (tid : Nat) :
    (tid ∈ schedulerPassSpawns now reg ↔
      ∃ e, (tid, e) ∈ reg ∧ e.monitoring_started = false ∧
        e.start_time - now < 3600) ∧
    (countKey reg tid ≤ 1 → tid ∈ schedulerPassSpawns now reg →
      ∃ e2, lookupKey (schedulerPassReg now reg) tid = some e2 ∧
        e2.monitoring_started = true) ∧
    (∀ trace, countKey reg tid ≤ 1 → spawnCount tid reg trace ≤ 1) := by
  refine ⟨?_, ?_, ?_⟩
  · rw [mem_schedulerPassSpawns]
    apply exists_congr
    intro e
    constructor
    · rintro ⟨hm, hcond⟩
      have := hcond
      unfold schedCond at this
      rcases Bool.and_eq_true _ _ ▸ this with ⟨hc1, hc2⟩
      exact ⟨hm, by simpa using hc1, of_decide_eq_true hc2⟩
    · rintro ⟨hm, hms, hlt⟩
      refine ⟨hm, ?_⟩
      unfold schedCond
      rw [hms]
      simpa using hlt
  · intro hcnt hmem
    rcases (mem_schedulerPassSpawns now reg tid).mp hmem with ⟨e0, hm0, hcond0⟩
    have hcon : containsKey reg tid = true := contains_of_mem reg tid e0 hm0
    rcases hl : lookupKey reg tid with _ | e1
    · rw [containsKey_eq_isSome, hl] at hcon
      cases hcon
    · refine ⟨schedApply now e1, ?_, ?_⟩
      · rw [schedulerPassReg_eq, lookupKey_keyMapVal, hl]
        rfl
      · have he10 : e1 = e0 :=
          mem_of_countKey_le_one reg tid e1 e0 hcnt (mem_of_lookupKey reg tid e1 hl) hm0
        rw [he10]
        unfold schedApply
        rw [if_pos hcond0]
  · intro trace hcnt
    exact spawnCount_le_one tid reg trace hcnt

theorem scheduler_lookahead_gating_witness :
    (1 ∉ schedulerPassSpawns 0 [(1, farEntry)]) ∧
    spawnCount 1 [(1, farEntry)] [SysStep.scheduler 0, SysStep.scheduler 1] ≤ 1 := by
  constructor
  · intro hm
    rcases (scheduler_lookahead_gating 0 [(1, farEntry)] 1).1.mp hm with
      ⟨e, hmem, _, hlt⟩
    have he : e = farEntry := congrArg Prod.snd (List.mem_singleton.mp hmem)
    rw [he] at hlt
    exact absurd hlt (by decide)
  · exact (scheduler_lookahead_gating 0 [(1, farEntry)] 1).2.2
      [SysStep.scheduler 0, SysStep.scheduler 1] (by decide)

/-- C6.  Monotone lifecycle flags: under every system step (a discovery
pass, a scheduler pass, or a monitor polling iteration), an entry stored for
`tid` stays stored and each of `monitoring_started` and
`contract_address_sent`, once true, remains true; and an entry that first
appears under a step (created by discovery admission) starts with both
flags false. -/
theorem lifecycle_flags_monotone (reg : Registry) (s : SysStep) (tid : Nat) :
    (∀ e, lookupKey reg tid = some e →
      ∃ e2, lookupKey (stepReg reg s) tid = some e2 ∧
        (e.monitoring_started = true → e2.monitoring_started = true) ∧
        (e.contract_address_sent = true → e2.contract_address_sent = true)) ∧
    (lookupKey reg tid = none →
      ∀ e2, lookupKey (stepReg reg s) tid = some e2 →
        e2.monitoring_started = false ∧ e2.contract_address_sent = false) := by
  cases s with
  | discovery now toks =>
      constructor
      · intro e he
        exact ⟨e, pollPass_lookup_preserved now toks reg tid e he,
          fun h => h, fun h => h⟩
      · intro hn e2 he2
        exact pollPass_new_flags now toks reg tid e2 hn he2
  | scheduler now =>
      constructor
      · intro e he
        refine ⟨schedApply now e, ?_, ?_, ?_⟩
        · show lookupKey (schedulerPassReg now reg) tid = _
          rw [schedulerPassReg_eq, lookupKey_keyMapVal, he]
          rfl
        · exact schedApply_monitoring now e
        · intro h
          rw [schedApply_sent]
          exact h
      · intro hn e2 he2
        exfalso
        have : lookupKey (schedulerPassReg now reg) tid = none := by
          rw [schedulerPassReg_eq, lookupKey_keyMapVal, hn]
          rfl
        rw [show stepReg reg (SysStep.scheduler now) = schedulerPassReg now reg
          from rfl, this] at he2
        cases he2
  | monitorPoll tid2 p =>
      have hstep : stepReg reg (SysStep.monitorPoll tid2 p) =
          (monitorPollStep tid2 p reg).1 := rfl
      rcases monitorPollStep_reg tid2 p reg with hr | hr
      · rw [hstep, hr]
        constructor
        · intro e he
          exact ⟨e, he, fun h => h, fun h => h⟩
        · intro hn e2 he2
          rw [hn] at he2
          cases he2
      · rw [hstep, hr]
        constructor
        · intro e he
          refine ⟨relApply tid2 tid e, ?_, ?_, ?_⟩
          · rw [markReleasedStep_eq, lookupKey_keyMapVal, he]
            rfl
          · intro h
            rw [relApply_monitoring]
            exact h
          · exact relApply_sent tid2 tid e
        · intro hn e2 he2
          exfalso
          rw [markReleasedStep_eq, lookupKey_keyMapVal, hn] at he2
          cases he2

theorem lifecycle_flags_monotone_witness :
    ∃ e2, lookupKey (stepReg [(1, doneEntry)] (SysStep.scheduler 0)) 1 = some e2 ∧
      (doneEntry.monitoring_started = true → e2.monitoring_started = true) ∧
      (doneEntry.contract_address_sent = true → e2.contract_address_sent = true) :=
  (lifecycle_flags_monotone [(1, doneEntry)] (SysStep.scheduler 0) 1).1
    doneEntry (by decide)

end Polparse
